import Mathlib

/-!
Verification development for `gofixbuf` (`buffer.go`), a fixed-capacity
append-only byte buffer derived from the Go `bytes.Buffer`.

Shallow embedding conventions:
* A Go byte slice is a view `(backing array, len, cap)`; a `Buffer`
  therefore carries `store` — the backing array of `b.buf` out to its
  capacity, so `cap(b.buf) = store.length` — together with `len`
  (`len(b.buf)`) and the write offset `off`.  Go guarantees
  `len <= store.length` for every real slice value; `TestCap`
  constructs `NewBuffer(make([]byte, 0, 5))`, a slice with `len 0` and
  `cap 5`, so states with `len < cap` are reachable and modelled.
* Go two-result returns `(n, err)` become products; `err` is
  `Option GoError` with `none` for the Go `nil`.
* Operations are total functions that agree with the Go code wherever
  it does not fault; the `Checked` variants make the Go run-time bounds
  checks explicit and return `none` exactly where the Go code panics
  (the store `b.buf[m] = c` is bounded by `len`, the slice expression
  `b.buf[m:]` requires `m <= len`, both after `checkLen` compared
  against `cap`).
* The 4-byte `runeBytes` scratch array is not observable state (the spec
  calls it transient scratch); `WriteRune` computes the encoding locally.
* An `io.Reader` is modelled as a state machine `Reader σ`: `read s k`
  returns the bytes placed at the start of a window of length `k`, the
  returned error, and the next state.  The `io.Reader` contract
  (`m <= len(p)`) is the well-formedness predicate `Reader.WF`.
-/

namespace Gofixbuf

/-- Errors observable through the buffer API: `ErrTooLarge` is the
error of the package itself, `EOF` models `io.EOF`, `other` models any
further reader-supplied error. -/
inductive GoError where
  | ErrTooLarge
  | EOF
  | other (code : Nat)
deriving Repr, DecidableEq

/-- The `Buffer` struct.  `store` is the backing array of the slice
`b.buf` out to its capacity (`cap(b.buf) = store.length`), `len` is
`len(b.buf)`, and `off` is the write offset.  A real Go slice always
has `len <= store.length`.  (`runeBytes` scratch omitted, see the
module docstring.) -/
structure Buffer where
  store : List Nat
  len : Nat
  off : Nat
deriving Repr, DecidableEq

/-- The Go built-in `copy(dst, src)` where `dst` is the window of
length `w` starting at index `m` of the backing array `store`: it
transfers `k = min w src.length` bytes into backing positions
`m ..< m + k` and returns the new backing array and the count `k`. -/
def copyAt (store : List Nat) (m w : Nat) (src : List Nat) : List Nat × Nat :=
  let k := min w src.length
  (store.take m ++ src.take k ++ store.drop (m + k), k)

/-- `NewBuffer(buf)`: the Go argument is a slice, passed here as its
backing array `arr` (out to its capacity) together with its length `n`.
`NewBuffer(make([]byte, 0, 5))` is `NewBuffer [0,0,0,0,0] 0` (Go `make`
zero-fills the backing), a full slice `s` is `NewBuffer s s.length`. -/
def NewBuffer (arr : List Nat) (n : Nat) : Buffer :=
  { store := arr, len := n, off := 0 }

/-- The zero value of `Buffer`: nil backing slice (`len = cap = 0`),
offset 0. -/
def zeroBuffer : Buffer := { store := [], len := 0, off := 0 }

/-- `Bytes()`: `return b.buf[:]` — the whole slice, i.e. the backing
array up to `len(b.buf)` (not up to the capacity, and not up to the
write offset). -/
def Buffer.Bytes (b : Buffer) : List Nat := b.store.take b.len

/-- `Len()`: `return len(b.buf)`. -/
def Buffer.Len (b : Buffer) : Nat := b.len

/-- `Cap()`: `return cap(b.buf)` — the length of the backing array. -/
def Buffer.Cap (b : Buffer) : Nat := b.store.length

/-- `Reset()`: `b.off = 0`. -/
def Buffer.Reset (b : Buffer) : Buffer := { b with off := 0 }

/-- `checkLen(n)`: `if b.off + n > cap(b.buf) { return b.off, ErrTooLarge };
return b.off, nil`.  Note it compares against the capacity. -/
def Buffer.checkLen (b : Buffer) (n : Nat) : Nat × Option GoError :=
  if b.Cap < b.off + n then (b.off, some GoError.ErrTooLarge)
  else (b.off, none)

/-- `Write(p)`: `m, e := b.checkLen(len(p)); if e != nil { return 0, e };
b.off = m + len(p); return copy(b.buf[m:], p), nil`.  The destination
`b.buf[m:]` is the window of length `len(b.buf) - m` at offset `m`, so
`copy` transfers `min (b.len - m) p.length` bytes and returns that
count.  Total model: where Go faults at the slice expression
(`m > len(b.buf)`) see `WriteChecked`. -/
def Buffer.Write (b : Buffer) (p : List Nat) : (Nat × Option GoError) × Buffer :=
  match b.checkLen p.length with
  | (_, some e) => ((0, some e), b)
  | (m, none) =>
      (((copyAt b.store m (b.len - m) p).2, none),
       { store := (copyAt b.store m (b.len - m) p).1, len := b.len,
         off := m + p.length })

/-- `WriteString(s)`: same body as `Write`, on the raw bytes of `s`. -/
def Buffer.WriteString (b : Buffer) (s : List Nat) : (Nat × Option GoError) × Buffer :=
  match b.checkLen s.length with
  | (_, some e) => ((0, some e), b)
  | (m, none) =>
      (((copyAt b.store m (b.len - m) s).2, none),
       { store := (copyAt b.store m (b.len - m) s).1, len := b.len,
         off := m + s.length })

/-- `WriteByte(c)`: `m, e := b.checkLen(1); if e != nil { return e };
b.buf[m] = c; b.off++; return nil`.  Total model: where Go faults at
the index (`m >= len(b.buf)`) see `WriteByteChecked`. -/
def Buffer.WriteByte (b : Buffer) (c : Nat) : Option GoError × Buffer :=
  match b.checkLen 1 with
  | (_, some e) => (some e, b)
  | (m, none) => (none, { store := b.store.set m c, len := b.len, off := b.off + 1 })

/-- The Go conversion `byte(r)` of a rune (int32): the low 8 bits. -/
def byteOf (r : Int) : Nat := (r % 256).toNat

/-- `utf8.EncodeRune`: the bytes it writes, following the Go source:
`i := uint32(r)`; 1 byte when `i <= 0x7F`; 2 bytes when `i <= 0x7FF`;
surrogates and out-of-range runes are replaced by `RuneError` (0xFFFD);
3 bytes when `i <= 0xFFFF`; otherwise 4 bytes. -/
def utf8EncodeRune (r : Int) : List Nat :=
  let i : Nat := (r % 4294967296).toNat
  if i ≤ 0x7F then [i]
  else if i ≤ 0x7FF then
    [0xC0 ||| i >>> 6, 0x80 ||| (i &&& 0x3F)]
  else if 0x10FFFF < i ∨ (0xD800 ≤ i ∧ i ≤ 0xDFFF) then
    [0xE0 ||| (0xFFFD : Nat) >>> 12,
     0x80 ||| (((0xFFFD : Nat) >>> 6) &&& 0x3F),
     0x80 ||| ((0xFFFD : Nat) &&& 0x3F)]
  else if i ≤ 0xFFFF then
    [0xE0 ||| i >>> 12, 0x80 ||| ((i >>> 6) &&& 0x3F), 0x80 ||| (i &&& 0x3F)]
  else
    [0xF0 ||| i >>> 18, 0x80 ||| ((i >>> 12) &&& 0x3F),
     0x80 ||| ((i >>> 6) &&& 0x3F), 0x80 ||| (i &&& 0x3F)]

/-- `WriteRune(r)`: `if r < utf8.RuneSelf { b.WriteByte(byte(r)); return 1, nil };
n = utf8.EncodeRune(b.runeBytes[0:], r); b.Write(b.runeBytes[0:n]); return n, nil`.
Both inner write results are discarded, exactly as in the source. -/
def Buffer.WriteRune (b : Buffer) (r : Int) : (Nat × Option GoError) × Buffer :=
  if r < 0x80 then
    ((1, none), (b.WriteByte (byteOf r)).2)
  else
    (((utf8EncodeRune r).length, none), (b.Write (utf8EncodeRune r)).2)

/-- A readable stream: from a state and the length of the window
`b.buf[b.off:cap(b.buf)]` it is given, produce the bytes it writes at
the start of that window, an optional error, and its next state. -/
structure Reader (σ : Type) where
  read : σ → Nat → List Nat × Option GoError × σ

/-- The `io.Reader` contract: a read never reports more bytes than the
window it was handed can hold. -/
def Reader.WF {σ : Type} (rd : Reader σ) : Prop :=
  ∀ s k, (rd.read s k).1.length ≤ k

/-- The `ReadFrom` loop body, fuelled (the fuel is an upper bound on
the iteration count, justified by `Reader.WF`: every continuing
iteration moves `off` strictly towards `cap`):
`m, e := r.Read(b.buf[b.off:cap(b.buf)]); b.off += m; n += int64(m);
if e != nil || m == 0 { return n, e }` and loop.  The window
`b.buf[b.off:cap(b.buf)]` has length `cap - off` and may extend past
`len(b.buf)` into the spare capacity of the backing array; `len` is
never changed. -/
def readLoop {σ : Type} (rd : Reader σ) :
    Nat → Buffer → σ → Nat → Nat × Option GoError × Buffer × σ
  | 0, b, s, n => (n, none, b, s)
  | fuel + 1, b, s, n =>
      let step := rd.read s (b.Cap - b.off)
      let m := step.1.length
      let b' : Buffer := { store := (copyAt b.store b.off (b.Cap - b.off) step.1).1,
                           len := b.len, off := b.off + m }
      if step.2.1.isSome ∨ m = 0 then (n + m, step.2.1, b', step.2.2)
      else readLoop rd fuel b' step.2.2 (n + m)

/-- `ReadFrom(r)`: run the loop from total 0; fuel `Cap - off + 1`
bounds the number of pulls for any contract-respecting reader. -/
def Buffer.ReadFrom {σ : Type} (b : Buffer) (rd : Reader σ) (s : σ) :
    Nat × Option GoError × Buffer × σ :=
  readLoop rd (b.Cap - b.off + 1) b s 0

/-- The source used by the example and tests of the package itself
(`bytes.NewBuffer(chunkData)` as an `io.Reader`): state is the bytes
not yet delivered; an empty source reports `(0, io.EOF)`, otherwise it
fills as much of the window as it can, with no error. -/
def bytesReader : Reader (List Nat) where
  read := fun s k =>
    match s with
    | [] => ([], some GoError.EOF, [])
    | _ => (s.take k, none, s.drop k)

/-- A generic scripted source: each pull pops the next `(chunk, err)`
response (the chunk truncated to the window, per the reader contract);
an exhausted script behaves like a drained source, `(0, io.EOF)`. -/
def scriptReader : Reader (List (List Nat × Option GoError)) where
  read := fun s k =>
    match s with
    | [] => ([], some GoError.EOF, [])
    | (c, e) :: rest => (c.take k, e, rest)

/-- `WriteByte` with the Go run-time bounds check on `b.buf[m] = c`
made explicit: indexing is bounded by `len(b.buf)`, so `none` (the
index-out-of-range panic) results when `m >= len(b.buf)`, even though
`checkLen` — which compares against `cap(b.buf)` — passed. -/
def Buffer.WriteByteChecked (b : Buffer) (c : Nat) :
    Option (Option GoError × Buffer) :=
  match b.checkLen 1 with
  | (_, some e) => some (some e, b)
  | (m, none) =>
      if m < b.len then
        some (none, { store := b.store.set m c, len := b.len, off := b.off + 1 })
      else none

/-- `Write` with the Go run-time bounds check on the slice expression
`b.buf[m:]` made explicit: it requires `m <= len(b.buf)`, so `none`
(the slice-bounds panic) results past that. -/
def Buffer.WriteChecked (b : Buffer) (p : List Nat) :
    Option ((Nat × Option GoError) × Buffer) :=
  match b.checkLen p.length with
  | (_, some e) => some ((0, some e), b)
  | (m, none) =>
      if m ≤ b.len then
        some (((copyAt b.store m (b.len - m) p).2, none),
          { store := (copyAt b.store m (b.len - m) p).1, len := b.len,
            off := m + p.length })
      else none

/-- Sum of the lengths of a list of chunks. -/
def chunksLen (chunks : List (List Nat)) : Nat :=
  (chunks.map List.length).sum

/-- A sequence of `Write` calls, threading the buffer. -/
def writeMany (b : Buffer) : List (List Nat) → Buffer
  | [] => b
  | c :: rest => writeMany (b.Write c).2 rest

/-- Every call in a sequence of `Write` calls succeeded with its full
input length: each returned `(len(c), nil)`. -/
def writeManyOk (b : Buffer) : List (List Nat) → Bool
  | [] => true
  | c :: rest => (decide ((b.Write c).1 = (c.length, none))) && writeManyOk (b.Write c).2 rest

/-! ### Helper lemmas about `copyAt`, `checkLen` and the write primitives -/

lemma copyAt_nil (store : List Nat) (m w : Nat) : copyAt store m w [] = (store, 0) := by
  simp [copyAt, List.take_append_drop]

lemma copyAt_of_le (store src : List Nat) (m w : Nat) (h : src.length ≤ w) :
    copyAt store m w src = (store.take m ++ src ++ store.drop (m + src.length),
      src.length) := by
  have hk : min w src.length = src.length := by omega
  simp [copyAt, hk, List.take_length]

lemma copyAt_length (store src : List Nat) (m w : Nat)
    (h : m + min w src.length ≤ store.length ∨ min w src.length = 0) :
    ((copyAt store m w src).1).length = store.length := by
  simp only [copyAt, List.length_append, List.length_take, List.length_drop]
  omega

lemma checkLen_full {b : Buffer} {n : Nat} (h : b.Cap < b.off + n) :
    b.checkLen n = (b.off, some GoError.ErrTooLarge) := by
  simp [Buffer.checkLen, h]

lemma checkLen_ok {b : Buffer} {n : Nat} (h : b.off + n ≤ b.Cap) :
    b.checkLen n = (b.off, none) := by
  simp [Buffer.checkLen, Nat.not_lt.mpr h]

lemma write_full {b : Buffer} {p : List Nat} (h : b.Cap < b.off + p.length) :
    b.Write p = ((0, some GoError.ErrTooLarge), b) := by
  simp [Buffer.Write, checkLen_full h]

lemma write_gen {b : Buffer} {p : List Nat} (h : b.off + p.length ≤ b.Cap) :
    b.Write p = ((min (b.len - b.off) p.length, none),
      { store := b.store.take b.off ++ p.take (min (b.len - b.off) p.length) ++
          b.store.drop (b.off + min (b.len - b.off) p.length),
        len := b.len, off := b.off + p.length }) := by
  simp [Buffer.Write, checkLen_ok h, copyAt]

lemma write_ok_full {b : Buffer} {p : List Nat} (hfull : b.len = b.store.length)
    (h : b.off + p.length ≤ b.Cap) :
    b.Write p = ((p.length, none),
      { store := b.store.take b.off ++ p ++ b.store.drop (b.off + p.length),
        len := b.len, off := b.off + p.length }) := by
  have hc : b.off + p.length ≤ b.store.length := h
  have hw : p.length ≤ b.len - b.off := by omega
  simp [Buffer.Write, checkLen_ok h, copyAt_of_le b.store p b.off (b.len - b.off) hw]

lemma writeString_full {b : Buffer} {s : List Nat} (h : b.Cap < b.off + s.length) :
    b.WriteString s = ((0, some GoError.ErrTooLarge), b) := by
  simp [Buffer.WriteString, checkLen_full h]

lemma writeByte_full {b : Buffer} {c : Nat} (h : b.Cap < b.off + 1) :
    b.WriteByte c = (some GoError.ErrTooLarge, b) := by
  simp [Buffer.WriteByte, checkLen_full h]

lemma writeByte_ok {b : Buffer} {c : Nat} (h : b.off + 1 ≤ b.Cap) :
    b.WriteByte c = (none, ⟨b.store.set b.off c, b.len, b.off + 1⟩) := by
  simp [Buffer.WriteByte, checkLen_ok h]

lemma write_snd_store_length (b : Buffer) (p : List Nat) :
    ((b.Write p).2).store.length = b.store.length := by
  rcases Nat.lt_or_ge b.Cap (b.off + p.length) with h | h
  · rw [write_full h]
  · have hc : b.off + p.length ≤ b.store.length := h
    simp only [Buffer.Write, checkLen_ok h]
    exact copyAt_length b.store p b.off (b.len - b.off) (by omega)

lemma write_snd_len (b : Buffer) (p : List Nat) :
    ((b.Write p).2).len = b.len := by
  rcases Nat.lt_or_ge b.Cap (b.off + p.length) with h | h
  · rw [write_full h]
  · simp [Buffer.Write, checkLen_ok h]

lemma writeString_snd_store_length (b : Buffer) (s : List Nat) :
    ((b.WriteString s).2).store.length = b.store.length := by
  rcases Nat.lt_or_ge b.Cap (b.off + s.length) with h | h
  · rw [writeString_full h]
  · have hc : b.off + s.length ≤ b.store.length := h
    simp only [Buffer.WriteString, checkLen_ok h]
    exact copyAt_length b.store s b.off (b.len - b.off) (by omega)

lemma writeString_snd_len (b : Buffer) (s : List Nat) :
    ((b.WriteString s).2).len = b.len := by
  rcases Nat.lt_or_ge b.Cap (b.off + s.length) with h | h
  · rw [writeString_full h]
  · simp [Buffer.WriteString, checkLen_ok h]

lemma writeByte_snd_store_length (b : Buffer) (c : Nat) :
    ((b.WriteByte c).2).store.length = b.store.length := by
  rcases Nat.lt_or_ge b.Cap (b.off + 1) with h | h
  · rw [writeByte_full h]
  · rw [writeByte_ok h]
    simp [List.length_set]

lemma writeByte_snd_len (b : Buffer) (c : Nat) :
    ((b.WriteByte c).2).len = b.len := by
  rcases Nat.lt_or_ge b.Cap (b.off + 1) with h | h
  · rw [writeByte_full h]
  · rw [writeByte_ok h]

lemma writeRune_snd_store_length (b : Buffer) (r : Int) :
    ((b.WriteRune r).2).store.length = b.store.length := by
  by_cases h : r < 0x80
  · simp [Buffer.WriteRune, h, writeByte_snd_store_length]
  · simp [Buffer.WriteRune, h, write_snd_store_length]

lemma writeRune_snd_len (b : Buffer) (r : Int) :
    ((b.WriteRune r).2).len = b.len := by
  by_cases h : r < 0x80
  · simp [Buffer.WriteRune, h, writeByte_snd_len]
  · simp [Buffer.WriteRune, h, write_snd_len]

lemma readLoop_store_length {σ : Type} (rd : Reader σ) :
    ∀ (fuel : Nat) (b : Buffer) (s : σ) (n : Nat),
      ((readLoop rd fuel b s n).2.2.1).store.length = b.store.length := by
  intro fuel
  induction fuel with
  | zero => intro b s n; rfl
  | succ f ih =>
      intro b s n
      have hcap : b.Cap = b.store.length := rfl
      simp only [readLoop]
      split
      · exact copyAt_length b.store (rd.read s (b.Cap - b.off)).1 b.off
          (b.Cap - b.off) (by omega)
      · rw [ih]
        exact copyAt_length b.store (rd.read s (b.Cap - b.off)).1 b.off
          (b.Cap - b.off) (by omega)

lemma readLoop_len {σ : Type} (rd : Reader σ) :
    ∀ (fuel : Nat) (b : Buffer) (s : σ) (n : Nat),
      ((readLoop rd fuel b s n).2.2.1).len = b.len := by
  intro fuel
  induction fuel with
  | zero => intro b s n; rfl
  | succ f ih =>
      intro b s n
      simp only [readLoop]
      split
      · rfl
      · rw [ih]

lemma readFrom_store_length {σ : Type} (b : Buffer) (rd : Reader σ) (s : σ) :
    ((b.ReadFrom rd s).2.2.1).store.length = b.store.length := by
  simp [Buffer.ReadFrom, readLoop_store_length]

lemma readFrom_len {σ : Type} (b : Buffer) (rd : Reader σ) (s : σ) :
    ((b.ReadFrom rd s).2.2.1).len = b.len := by
  simp [Buffer.ReadFrom, readLoop_len]

lemma splice_chain (buf c rest : List Nat) (off k : Nat)
    (hoff : off + c.length ≤ buf.length) :
    (buf.take off ++ c ++ buf.drop (off + c.length)).take (off + c.length) ++ rest ++
      (buf.take off ++ c ++ buf.drop (off + c.length)).drop (off + c.length + k) =
    buf.take off ++ (c ++ rest) ++ buf.drop (off + c.length + k) := by
  have hA : (buf.take off ++ c).length = off + c.length := by
    simp only [List.length_append, List.length_take]
    omega
  have h1 : (buf.take off ++ c ++ buf.drop (off + c.length)).take (off + c.length)
      = buf.take off ++ c := List.take_left' hA
  have h2 : (buf.take off ++ c ++ buf.drop (off + c.length)).drop (off + c.length + k)
      = buf.drop (off + c.length + k) := by
    rw [← List.drop_drop, List.drop_left' hA, List.drop_drop]
  rw [h1, h2]
  simp [List.append_assoc]

lemma writeMany_spec :
    ∀ (chunks : List (List Nat)) (b : Buffer),
      b.len = b.store.length →
      b.off + chunksLen chunks ≤ b.store.length →
      writeMany b chunks =
        { store := b.store.take b.off ++ chunks.flatten ++
            b.store.drop (b.off + chunksLen chunks),
          len := b.len, off := b.off + chunksLen chunks } ∧
      writeManyOk b chunks = true := by
  intro chunks
  induction chunks with
  | nil =>
      intro b hfull hb
      refine ⟨?_, rfl⟩
      simp [writeMany, chunksLen, List.take_append_drop]
  | cons c rest ih =>
      intro b hfull hb
      have hcl : chunksLen (c :: rest) = c.length + chunksLen rest := by
        simp [chunksLen]
      have hc : b.off + c.length ≤ b.Cap := by
        have hcb : b.Cap = b.store.length := rfl
        rw [hcl] at hb; omega
      have hw := write_ok_full hfull hc
      have hcl1 : b.off + c.length ≤ b.store.length := hc
      have hlen1 : (b.store.take b.off ++ c ++ b.store.drop (b.off + c.length)).length
          = b.store.length := by
        simp only [List.length_append, List.length_take, List.length_drop]
        omega
      have hfull1 :
          (⟨b.store.take b.off ++ c ++ b.store.drop (b.off + c.length), b.len,
            b.off + c.length⟩ : Buffer).len =
          (⟨b.store.take b.off ++ c ++ b.store.drop (b.off + c.length), b.len,
            b.off + c.length⟩ : Buffer).store.length := by
        show b.len = (b.store.take b.off ++ c ++ b.store.drop (b.off + c.length)).length
        rw [hlen1]
        exact hfull
      have hb1 :
          (⟨b.store.take b.off ++ c ++ b.store.drop (b.off + c.length), b.len,
            b.off + c.length⟩ : Buffer).off + chunksLen rest ≤
          (⟨b.store.take b.off ++ c ++ b.store.drop (b.off + c.length), b.len,
            b.off + c.length⟩ : Buffer).store.length := by
        show b.off + c.length + chunksLen rest ≤
          (b.store.take b.off ++ c ++ b.store.drop (b.off + c.length)).length
        rw [hlen1]
        rw [hcl] at hb
        omega
      obtain ⟨ih1, ih2⟩ := ih _ hfull1 hb1
      constructor
      · rw [writeMany, hw]
        rw [ih1]
        simp only [Buffer.mk.injEq, hcl, List.flatten_cons]
        refine ⟨?_, trivial, by omega⟩
        rw [← Nat.add_assoc]
        exact splice_chain b.store c rest.flatten b.off (chunksLen rest) hcl1
      · rw [writeManyOk, hw, ih2]
        simp

lemma readLoop_script_drain :
    ∀ (sc : List (List Nat × Option GoError)) (b : Buffer) (n fuel : Nat),
      (∀ x ∈ sc, x.1 ≠ [] ∧ x.2 = none) →
      b.off + chunksLen (sc.map Prod.fst) ≤ b.store.length →
      b.store.length - b.off < fuel →
      readLoop scriptReader fuel b sc n =
        (n + chunksLen (sc.map Prod.fst), some GoError.EOF,
         { store := b.store.take b.off ++ (sc.map Prod.fst).flatten ++
             b.store.drop (b.off + chunksLen (sc.map Prod.fst)),
           len := b.len, off := b.off + chunksLen (sc.map Prod.fst) }, []) := by
  intro sc
  induction sc with
  | nil =>
      intro b n fuel hgood hlen hfuel
      obtain ⟨f, rfl⟩ : ∃ f, fuel = f + 1 := ⟨fuel - 1, by omega⟩
      simp [readLoop, scriptReader, chunksLen, copyAt_nil, List.take_append_drop]
  | cons a rest ih =>
      obtain ⟨c, e⟩ := a
      intro b n fuel hgood hlen hfuel
      obtain ⟨f, rfl⟩ : ∃ f, fuel = f + 1 := ⟨fuel - 1, by omega⟩
      have hc : c ≠ [] := (hgood (c, e) (List.mem_cons_self _ _)).1
      have he : e = none := (hgood (c, e) (List.mem_cons_self _ _)).2
      subst he
      have hclen : 0 < c.length := List.length_pos.mpr hc
      have hsum : chunksLen (((c, (none : Option GoError)) :: rest).map Prod.fst)
          = c.length + chunksLen (rest.map Prod.fst) := by
        simp [chunksLen]
      have hcap : b.off + c.length ≤ b.store.length := by
        rw [hsum] at hlen; omega
      have hwin : c.length ≤ b.Cap - b.off := by
        have hcb : b.Cap = b.store.length := rfl
        omega
      have htake : c.take (b.Cap - b.off) = c := List.take_of_length_le hwin
      have hne : ¬ c.length = 0 := by omega
      have hstep : readLoop scriptReader (f + 1) b ((c, none) :: rest) n
          = readLoop scriptReader f
              { store := b.store.take b.off ++ c ++ b.store.drop (b.off + c.length),
                len := b.len, off := b.off + c.length } rest (n + c.length) := by
        simp only [readLoop, scriptReader]
        simp [htake, hne, copyAt_of_le b.store c b.off (b.Cap - b.off) hwin]
      have hlen1 : (b.store.take b.off ++ c ++ b.store.drop (b.off + c.length)).length
          = b.store.length := by
        simp only [List.length_append, List.length_take, List.length_drop]
        omega
      have hgood' : ∀ x ∈ rest, x.1 ≠ [] ∧ x.2 = none :=
        fun x hx => hgood x (List.mem_cons_of_mem _ hx)
      have hlen' : b.off + c.length + chunksLen (rest.map Prod.fst) ≤
          (b.store.take b.off ++ c ++ b.store.drop (b.off + c.length)).length := by
        rw [hlen1]; rw [hsum] at hlen; omega
      have hfuel' :
          (b.store.take b.off ++ c ++ b.store.drop (b.off + c.length)).length
            - (b.off + c.length) < f := by
        rw [hlen1]; omega
      have hrest := ih ⟨b.store.take b.off ++ c ++ b.store.drop (b.off + c.length),
        b.len, b.off + c.length⟩ (n + c.length) f hgood' hlen' hfuel'
      rw [hstep, hrest]
      have hsum' : chunksLen (c :: List.map Prod.fst rest)
          = c.length + chunksLen (List.map Prod.fst rest) := by
        simp [chunksLen]
      simp only [List.map_cons, List.flatten_cons, hsum', Prod.mk.injEq,
        Buffer.mk.injEq]
      have hs := splice_chain b.store c ((rest.map Prod.fst).flatten) b.off
        (chunksLen (rest.map Prod.fst)) hcap
      refine ⟨by omega, trivial, ⟨?_, trivial, by omega⟩, trivial⟩
      rw [← Nat.add_assoc]
      exact hs

/-! ### Claim theorems -/

/-- Claim C1, counterexample: the spec says `Bytes()` returns exactly the
written prefix `storage[0:cursor]` (hence the concatenation of all inputs
so far).  On a capacity-2 buffer constructed from the full slice
`[65, 65]`, one successful 1-byte `Write` of `[97]` leaves the cursor at
1, so the claimed view is `[97]`; the coded `Bytes()` returns the whole
slice `[97, 65]`. -/
theorem c1_bytes_whole_region_cx :
    (((NewBuffer [65, 65] 2).Write [97]).2).Bytes = [97, 65] ∧
    ([97, 65] : List Nat) ≠ [97] := by decide

/-- Claim C1 (corrected): `Bytes()` returns the whole slice `b.buf[:]`,
not the written prefix.  For a buffer constructed from a slice at full
capacity (`len == cap` — every use in the package except `TestCap`),
after any sequence of `Write` calls whose cumulative length `L` stays
within `Capacity()`, each call succeeds and reports its full input
length, and `Bytes()` equals the concatenation of all inputs so far
followed by the original slice bytes from offset `L` onward.  (On a
slice with spare capacity the count and view degrade further — see
C3.) -/
theorem c1_bytes_full_capacity_writes (region : List Nat)
    (chunks : List (List Nat)) (h : chunksLen chunks ≤ region.length) :
    (writeMany (NewBuffer region region.length) chunks).Bytes =
      chunks.flatten ++ region.drop (chunksLen chunks) ∧
    writeManyOk (NewBuffer region region.length) chunks = true := by
  have h0 : (NewBuffer region region.length).off + chunksLen chunks ≤
      (NewBuffer region region.length).store.length := by
    simpa [NewBuffer] using h
  obtain ⟨h1, h2⟩ := writeMany_spec chunks (NewBuffer region region.length) rfl h0
  refine ⟨?_, h2⟩
  rw [h1]
  show (((NewBuffer region region.length).store.take 0 ++ chunks.flatten ++
      (NewBuffer region region.length).store.drop (0 + chunksLen chunks)).take
      region.length) = chunks.flatten ++ region.drop (chunksLen chunks)
  have hflat : chunks.flatten.length = chunksLen chunks := by
    simp [chunksLen]
  have hle : (chunks.flatten ++ region.drop (chunksLen chunks)).length ≤
      region.length := by
    simp only [List.length_append, List.length_drop, hflat]
    omega
  simp only [NewBuffer, List.take_zero, List.nil_append, Nat.zero_add]
  exact List.take_of_length_le hle

/-- Witness for C1: on the full slice `[65, 65]`, the single successful
write of `[97]` makes `Bytes()` equal `[97, 65]` — the input followed by
the untouched original byte, not the bare written prefix `[97]`. -/
theorem c1_bytes_full_capacity_writes_witness :
    (writeMany (NewBuffer [65, 65] 2) [[97]]).Bytes = [97, 65] ∧
    writeManyOk (NewBuffer [65, 65] 2) [[97]] = true :=
  ⟨(c1_bytes_full_capacity_writes [65, 65] [[97]] (by decide)).1.trans (by decide),
   (c1_bytes_full_capacity_writes [65, 65] [[97]] (by decide)).2⟩

/-- Claim C2, counterexample: the spec says `Len()` is 0 immediately
after construction from a region of any length; on the full slice `[65]`
the coded `Len()` returns `len(b.buf) = 1`. -/
theorem c2_len_nonzero_after_construction_cx :
    (NewBuffer [65] 1).Len = 1 ∧ (1 : Nat) ≠ 0 := by decide

/-- Claim C2 (corrected): `Len()` returns `len(b.buf)` — the length of
the slice the buffer was constructed from — not the cursor: it equals
that length immediately after construction (whatever the slice holds),
and is invariant under `Reset`, `Write`, `WriteString`, `WriteByte`,
`WriteRune` and `ReadFrom` (the code never reassigns `b.buf`), so it
does not track the number of bytes written. -/
theorem c2_len_invariant :
    (∀ (arr : List Nat) (n : Nat), (NewBuffer arr n).Len = n) ∧
    (∀ b : Buffer, b.Reset.Len = b.Len) ∧
    (∀ (b : Buffer) (p : List Nat), ((b.Write p).2).Len = b.Len) ∧
    (∀ (b : Buffer) (s : List Nat), ((b.WriteString s).2).Len = b.Len) ∧
    (∀ (b : Buffer) (c : Nat), ((b.WriteByte c).2).Len = b.Len) ∧
    (∀ (b : Buffer) (r : Int), ((b.WriteRune r).2).Len = b.Len) ∧
    (∀ (σ : Type) (rd : Reader σ) (s : σ) (b : Buffer),
      ((b.ReadFrom rd s).2.2.1).Len = b.Len) :=
  ⟨fun _ _ => rfl, fun _ => rfl,
   fun b p => write_snd_len b p,
   fun b s => writeString_snd_len b s,
   fun b c => writeByte_snd_len b c,
   fun b r => writeRune_snd_len b r,
   fun _ rd s b => readFrom_len b rd s⟩

/-- Claim C3, counterexample: the spec says an in-capacity `Write`
returns the full count `n`, never partial.  On
`NewBuffer(make([]byte, 0, 5))` — the usage the `NewBuffer` doc comment
recommends and `TestCap` exercises — a 1-byte `Write` is within
`Capacity()` (5), yet `copy` into the length-0 slice transfers nothing:
the call returns `(0, nil)` — a partial count with success — while the
cursor still advances to 1 and the backing bytes are untouched. -/
theorem c3_write_partial_count_cx :
    (NewBuffer [0, 0, 0, 0, 0] 0).Write [65] =
      ((0, none), ⟨[0, 0, 0, 0, 0], 0, 1⟩) ∧
    (0 : Nat) ≠ 1 := by decide

/-- Claim C3 (corrected): if `cursor + n > cap(b.buf)`, `Write` writes
nothing, leaves the buffer unchanged and returns `(0, ErrTooLarge)`.
Otherwise (when `cursor <= len(b.buf)`, outside which the Go slice
expression faults — see C4) it advances the cursor by `n` but copies
only `k = min (len(b.buf) - cursor) n` bytes into the backing storage at
the cursor, returning `(k, nil)`; the count equals the full `n` (never
partial) exactly on slices at full capacity (`len == cap`), the standard
usage of the package. -/
theorem c3_write_bounded_spec (b : Buffer) (p : List Nat) :
    (b.Cap < b.off + p.length → b.Write p = ((0, some GoError.ErrTooLarge), b)) ∧
    (b.off + p.length ≤ b.Cap → b.off ≤ b.len →
      b.Write p = ((min (b.len - b.off) p.length, none),
        { store := b.store.take b.off ++ p.take (min (b.len - b.off) p.length) ++
            b.store.drop (b.off + min (b.len - b.off) p.length),
          len := b.len, off := b.off + p.length })) ∧
    (b.len = b.store.length → b.off + p.length ≤ b.Cap →
      b.Write p = ((p.length, none),
        { store := b.store.take b.off ++ p ++ b.store.drop (b.off + p.length),
          len := b.len, off := b.off + p.length })) :=
  ⟨fun h => write_full h,
   fun h _ => write_gen h,
   fun hfull h => write_ok_full hfull h⟩

/-- Witness for C3: on the spare-capacity slice `make([]byte, 0, 5)` an
in-capacity write reports the partial count 0 with success while the
cursor advances; on the full slice `[7, 7]` the same write reports its
full length 1; an over-capacity write fails with `ErrTooLarge`. -/
theorem c3_write_bounded_spec_witness :
    (NewBuffer [0, 0, 0, 0, 0] 0).Write [65] = ((0, none), ⟨[0, 0, 0, 0, 0], 0, 1⟩) ∧
    (NewBuffer [7, 7] 2).Write [8] = ((1, none), ⟨[8, 7], 2, 1⟩) ∧
    (NewBuffer [7] 1).Write [1, 2] = ((0, some GoError.ErrTooLarge), NewBuffer [7] 1) :=
  ⟨((c3_write_bounded_spec (NewBuffer [0, 0, 0, 0, 0] 0) [65]).2.1 (by decide)
      (by decide)).trans (by decide),
   ((c3_write_bounded_spec (NewBuffer [7, 7] 2) [8]).2.2 (by decide)
      (by decide)).trans (by decide),
   (c3_write_bounded_spec (NewBuffer [7] 1) [1, 2]).1 (by decide)⟩

/-- Claim C4 (code_bug): the claim — no operation panics under normal
use, every capacity problem surfacing as the non-fatal `BufferFull`
result — states the documented intent, but the code faults on its own
documented usage.  On `NewBuffer(make([]byte, 0, 1))` (the construction
the `NewBuffer` doc comment recommends: desired capacity, length zero),
`checkLen(1)` passes because it compares against `cap(b.buf) = 1`, yet
the store `b.buf[0] = c` is bounds-checked against `len(b.buf) = 0` and
panics with index out of range; likewise, after one `Write` on
`NewBuffer(make([]byte, 0, 2))` the next `Write` passes `checkLen` and
faults at the slice expression `b.buf[1:]`.  This theorem evaluates the
explicit run-time-check model at those failing inputs: the capacity
check passes and the checked operation returns the panic marker. -/
theorem c4_in_capacity_write_faults :
    (NewBuffer [0] 0).checkLen 1 = (0, none) ∧
    (NewBuffer [0] 0).WriteByteChecked 65 = none ∧
    ((NewBuffer [0, 0] 0).Write [65]).2.WriteChecked [66] = none := by decide

/-- Claim C5, counterexample: the spec says that for a multi-byte scalar
`WriteRune` reports whether the underlying bounded write succeeded, the
error reporting the failure when capacity is insufficient.  On the
zero-capacity buffer, `WriteRune 0x80` needs a 2-byte encoding, the inner
`Write` fails and nothing is written, yet the call returns `(2, nil)` —
the returned error is `nil`, not `ErrTooLarge`. -/
theorem c5_writeRune_nil_error_cx :
    zeroBuffer.WriteRune 128 = ((2, none), zeroBuffer) ∧
    (none : Option GoError) ≠ some GoError.ErrTooLarge := by decide

/-- Claim C5 (corrected): for a code point `>= 0x80`, `WriteRune` returns
the byte length of the UTF-8 encoding and always a `nil` error; it
performs the underlying bounded `Write` but discards its result, so when
remaining capacity is insufficient nothing is written, the buffer is
unchanged, and the returned error is still `nil` (the failure is not
reported). -/
theorem c5_writeRune_multibyte_spec (b : Buffer) (r : Int) (h : 0x80 ≤ r) :
    (b.WriteRune r).1 = ((utf8EncodeRune r).length, none) ∧
    (b.WriteRune r).2 = (b.Write (utf8EncodeRune r)).2 ∧
    (b.Cap < b.off + (utf8EncodeRune r).length →
      b.WriteRune r = (((utf8EncodeRune r).length, none), b)) := by
  have h' : ¬ r < 0x80 := not_lt.mpr h
  refine ⟨by simp [Buffer.WriteRune, h'], by simp [Buffer.WriteRune, h'],
    fun h2 => ?_⟩
  simp [Buffer.WriteRune, h', write_full h2]

/-- Witness for C5: the zero-capacity buffer and the 2-byte scalar 0x80;
the call reports `(2, nil)` while writing nothing. -/
theorem c5_writeRune_multibyte_spec_witness :
    (zeroBuffer.WriteRune 128).1 = ((utf8EncodeRune 128).length, none) ∧
    zeroBuffer.WriteRune 128 = (((utf8EncodeRune 128).length, none), zeroBuffer) :=
  ⟨(c5_writeRune_multibyte_spec zeroBuffer 128 (by decide)).1,
   (c5_writeRune_multibyte_spec zeroBuffer 128 (by decide)).2.2 (by decide)⟩

/-- Claim C6 (confirmed): `ReadFrom` repeatedly pulls chunks into
`storage[cursor:capacity]`, advancing the cursor and accumulating the
running total, and stops exactly at the three stated events.  Over the
scripted source model: (1) while the source keeps yielding non-empty
chunks with no error, the loop consumes them all and stops at
end-of-data, returning the EOF signal alongside the total, having written
the concatenation at the old cursor and left the backing bytes beyond the
written region unchanged (a source with fewer bytes than remaining
capacity); (2) a pull that reports any error stops the loop and
propagates that error with the running total; (3) a pull yielding zero
bytes and no error stops the loop returning the total with no error and
the buffer untouched. -/
theorem c6_readFrom_spec :
    (∀ (b : Buffer) (sc : List (List Nat × Option GoError)),
      (∀ x ∈ sc, x.1 ≠ [] ∧ x.2 = none) →
      b.off + chunksLen (sc.map Prod.fst) ≤ b.store.length →
      b.ReadFrom scriptReader sc =
        (chunksLen (sc.map Prod.fst), some GoError.EOF,
         { store := b.store.take b.off ++ (sc.map Prod.fst).flatten ++
             b.store.drop (b.off + chunksLen (sc.map Prod.fst)),
           len := b.len, off := b.off + chunksLen (sc.map Prod.fst) }, [])) ∧
    (∀ (b : Buffer) (c : List Nat) (err : GoError)
        (rest : List (List Nat × Option GoError)),
      (b.ReadFrom scriptReader ((c, some err) :: rest)).1 =
        min c.length (b.Cap - b.off) ∧
      (b.ReadFrom scriptReader ((c, some err) :: rest)).2.1 = some err ∧
      (b.ReadFrom scriptReader ((c, some err) :: rest)).2.2.2 = rest) ∧
    (∀ (b : Buffer) (rest : List (List Nat × Option GoError)),
      b.ReadFrom scriptReader (([], none) :: rest) = (0, none, b, rest)) := by
  refine ⟨fun b sc hgood hlen => ?_, fun b c err rest => ?_, fun b rest => ?_⟩
  · have h := readLoop_script_drain sc b 0 (b.Cap - b.off + 1) hgood hlen
      (by have hcb : b.Cap = b.store.length := rfl; omega)
    rw [Buffer.ReadFrom, h]
    simp
  · rw [Buffer.ReadFrom]
    simp only [readLoop, scriptReader]
    simp [List.length_take, Nat.min_comm]
  · rw [Buffer.ReadFrom]
    simp only [readLoop, scriptReader]
    simp [copyAt_nil]

/-- Witness for C6: a capacity-4 buffer pre-filled with 9s drains a
two-chunk, three-byte source; `ReadFrom` returns `(3, EOF)`, the three
bytes sit at the front of the backing array, and the fourth backing byte
is unchanged. -/
theorem c6_readFrom_spec_witness :
    (NewBuffer [9, 9, 9, 9] 4).ReadFrom scriptReader [([1], none), ([2, 3], none)] =
      (3, some GoError.EOF, { store := [1, 2, 3, 9], len := 4, off := 3 }, []) := by
  have h := c6_readFrom_spec.1 (NewBuffer [9, 9, 9, 9] 4)
    [([1], none), ([2, 3], none)] (by simp) (by decide)
  exact h.trans (by decide)

/-- Claim C7 (confirmed): every `BufferFull` (`ErrTooLarge`) failure is
all-or-nothing.  A failing `Write`, `WriteString` or `WriteByte` returns
the error with count 0 and the buffer exactly as it was; a `WriteRune`
whose inner bounded write fails (1-byte fast path or multi-byte
encoding) likewise leaves the buffer unchanged. -/
theorem c7_bufferFull_all_or_nothing :
    (∀ (b : Buffer) (p : List Nat), b.Cap < b.off + p.length →
      b.Write p = ((0, some GoError.ErrTooLarge), b)) ∧
    (∀ (b : Buffer) (s : List Nat), b.Cap < b.off + s.length →
      b.WriteString s = ((0, some GoError.ErrTooLarge), b)) ∧
    (∀ (b : Buffer) (c : Nat), b.Cap < b.off + 1 →
      b.WriteByte c = (some GoError.ErrTooLarge, b)) ∧
    (∀ (b : Buffer) (r : Int), r < 0x80 → b.Cap < b.off + 1 →
      (b.WriteRune r).2 = b) ∧
    (∀ (b : Buffer) (r : Int), 0x80 ≤ r →
      b.Cap < b.off + (utf8EncodeRune r).length → (b.WriteRune r).2 = b) := by
  refine ⟨fun b p h => write_full h, fun b s h => writeString_full h,
    fun b c h => writeByte_full h, fun b r h h2 => ?_, fun b r h h2 => ?_⟩
  · simp [Buffer.WriteRune, h, writeByte_full h2]
  · simp [Buffer.WriteRune, not_lt.mpr h, write_full h2]

/-- Witness for C7: each failing write primitive on the zero-capacity
buffer leaves it untouched. -/
theorem c7_bufferFull_all_or_nothing_witness :
    zeroBuffer.Write [1] = ((0, some GoError.ErrTooLarge), zeroBuffer) ∧
    zeroBuffer.WriteString [2] = ((0, some GoError.ErrTooLarge), zeroBuffer) ∧
    zeroBuffer.WriteByte 3 = (some GoError.ErrTooLarge, zeroBuffer) ∧
    (zeroBuffer.WriteRune 65).2 = zeroBuffer ∧
    (zeroBuffer.WriteRune 955).2 = zeroBuffer :=
  ⟨c7_bufferFull_all_or_nothing.1 zeroBuffer [1] (by decide),
   c7_bufferFull_all_or_nothing.2.1 zeroBuffer [2] (by decide),
   c7_bufferFull_all_or_nothing.2.2.1 zeroBuffer 3 (by decide),
   c7_bufferFull_all_or_nothing.2.2.2.1 zeroBuffer 65 (by decide) (by decide),
   c7_bufferFull_all_or_nothing.2.2.2.2 zeroBuffer 955 (by decide) (by decide)⟩

/-- Claim C8, counterexample: the spec says `Capacity()` equals the
length of the region the buffer was constructed from; `TestCap`
constructs `NewBuffer(make([]byte, 0, 5))` — a slice of length 0 — and
the coded `Cap()` returns 5, the backing capacity, not the length 0. -/
theorem c8_cap_not_slice_length_cx :
    (NewBuffer [0, 0, 0, 0, 0] 0).Len = 0 ∧
    (NewBuffer [0, 0, 0, 0, 0] 0).Cap = 5 ∧
    (5 : Nat) ≠ 0 := by decide

/-- Claim C8 (corrected): `Cap()` returns `cap(b.buf)` — the capacity of
the supplied slice, i.e. the length of its backing array — which equals
the slice length only when the slice is at full capacity; and `Cap()`
is invariant under any number of `Write`, `WriteString`, `WriteByte`,
`WriteRune`, `ReadFrom` and `Reset` calls (the backing array is never
reallocated). -/
theorem c8_cap_spec :
    (∀ (arr : List Nat) (n : Nat), (NewBuffer arr n).Cap = arr.length) ∧
    (∀ (b : Buffer) (p : List Nat), ((b.Write p).2).Cap = b.Cap) ∧
    (∀ (b : Buffer) (s : List Nat), ((b.WriteString s).2).Cap = b.Cap) ∧
    (∀ (b : Buffer) (c : Nat), ((b.WriteByte c).2).Cap = b.Cap) ∧
    (∀ (b : Buffer) (r : Int), ((b.WriteRune r).2).Cap = b.Cap) ∧
    (∀ (σ : Type) (rd : Reader σ) (s : σ) (b : Buffer),
      ((b.ReadFrom rd s).2.2.1).Cap = b.Cap) ∧
    (∀ b : Buffer, b.Reset.Cap = b.Cap) :=
  ⟨fun _ _ => rfl,
   fun b p => write_snd_store_length b p,
   fun b s => writeString_snd_store_length b s,
   fun b c => writeByte_snd_store_length b c,
   fun b r => writeRune_snd_store_length b r,
   fun _ rd s b => readFrom_store_length b rd s,
   fun _ => rfl⟩

/-- Claim C9 (confirmed): for a code point below `utf8.RuneSelf` (0x80),
`WriteRune` performs the underlying `WriteByte` attempt, discards its
result, and unconditionally returns `(1, nil)`; when the buffer is full
the inner write fails and the buffer is unchanged, but the reported count
is still 1 with a nil error. -/
theorem c9_writeRune_fast_path (b : Buffer) (r : Int) (h : r < 0x80) :
    (b.WriteRune r).1 = (1, none) ∧
    (b.WriteRune r).2 = (b.WriteByte (byteOf r)).2 ∧
    (b.Cap < b.off + 1 → (b.WriteRune r).2 = b) := by
  refine ⟨by simp [Buffer.WriteRune, h], by simp [Buffer.WriteRune, h],
    fun h2 => ?_⟩
  simp [Buffer.WriteRune, h, writeByte_full h2]

/-- Witness for C9: writing the ASCII scalar 65 to the full (zero
capacity) buffer still reports `(1, nil)` and writes nothing. -/
theorem c9_writeRune_fast_path_witness :
    (zeroBuffer.WriteRune 65).1 = (1, none) ∧
    (zeroBuffer.WriteRune 65).2 = zeroBuffer :=
  ⟨(c9_writeRune_fast_path zeroBuffer 65 (by decide)).1,
   (c9_writeRune_fast_path zeroBuffer 65 (by decide)).2.2 (by decide)⟩

/-- Claim C10, counterexample: the spec says any write to the zero-value
buffer fails with `BufferFull`; a zero-length `Write` succeeds there
(`checkLen(0)` passes since `0 + 0 <= 0`), returning a `nil` error. -/
theorem c10_zero_buffer_empty_write_cx :
    (zeroBuffer.Write []).1.2 = none ∧
    (none : Option GoError) ≠ some GoError.ErrTooLarge := by decide

/-- Claim C10 (corrected): the zero-value buffer has capacity 0 and needs
no initialisation; every write of at least one byte (`Write`,
`WriteString`, `WriteByte`) fails with `ErrTooLarge` writing 0 bytes and
leaving the buffer unchanged, while a zero-length `Write` or
`WriteString` succeeds vacuously with count 0. -/
theorem c10_zero_buffer_spec :
    zeroBuffer.Cap = 0 ∧
    (∀ p : List Nat, p ≠ [] →
      zeroBuffer.Write p = ((0, some GoError.ErrTooLarge), zeroBuffer)) ∧
    (∀ s : List Nat, s ≠ [] →
      zeroBuffer.WriteString s = ((0, some GoError.ErrTooLarge), zeroBuffer)) ∧
    (∀ c : Nat, zeroBuffer.WriteByte c = (some GoError.ErrTooLarge, zeroBuffer)) ∧
    zeroBuffer.Write [] = ((0, none), zeroBuffer) ∧
    zeroBuffer.WriteString [] = ((0, none), zeroBuffer) := by
  refine ⟨rfl, fun p hp => write_full ?_, fun s hs => writeString_full ?_,
    fun c => writeByte_full (by decide), by decide, by decide⟩
  · simpa [zeroBuffer, Buffer.Cap] using List.length_pos.mpr hp
  · simpa [zeroBuffer, Buffer.Cap] using List.length_pos.mpr hs

/-- Witness for C10: one-byte writes to the zero-value buffer all fail
with `ErrTooLarge` and write nothing. -/
theorem c10_zero_buffer_spec_witness :
    zeroBuffer.Write [7] = ((0, some GoError.ErrTooLarge), zeroBuffer) ∧
    zeroBuffer.WriteString [8] = ((0, some GoError.ErrTooLarge), zeroBuffer) :=
  ⟨c10_zero_buffer_spec.2.1 [7] (by decide),
   c10_zero_buffer_spec.2.2.1 [8] (by decide)⟩

end Gofixbuf
